import Mathlib

/-!
# Verification of the Trading_Bot authenticated request pipeline

A shallow embedding, in Lean 4, of the core of `src/app.py`: the HMAC-SHA256
signer (`BinanceClient._sign`), the request dispatcher (`BinanceClient.request`)
with its timestamp / recvWindow / signature injection and its error handling,
the order builders (`market_order`, `limit_order`), and the three validators
(`validate_symbol`, `validate_quantity`, `validate_price`).

Modelling conventions:
* Bytes are `Nat` values < 256; machine words in SHA-256 are `Nat` values
  reduced modulo 2^32 explicitly.
* Python `dict` is an association list `List (String × Value)` in insertion
  order; `dict.__setitem__` is `dictSet` (replace in place if the key exists,
  else append), matching CPython's order-preserving semantics.
* Python values appearing as request parameters are `Value` (strings and
  integers; `str()` is `pyStr`).
* The HTTP layer (`requests.Session.get/post`) is a function argument
  `transport : String → String → List (String × Value) → HttpOutcome`:
  it receives the method, the full URL and the final parameter list, and
  either raises (`HttpOutcome.exn`, modelling `requests.exceptions.
  RequestException`) or returns a response with a status code and a body.
* `time.time() * 1000` is an explicit argument `now : Nat`.
* `response.json()` is `jsonDecode`, a JSON parser returning `Option Json`
  (modelling `json.loads`: `none` on `ValueError`).
* Python `float(s)` is `pyFloat`, returning finite rationals, infinities and
  nan; binary rounding of finite values to IEEE doubles is not modelled (it
  cannot change the sign of any value of magnitude above the subnormal
  threshold, and every input the claims mention is far above it).
* `str.isalnum` is modelled over the ASCII alphanumeric class (every input
  the spec mentions is ASCII; the Unicode classes would be carried by both
  sides of the claims identically).
-/

/-! ## Bytes, UTF-8, percent-encoding -/

/-- Reduce modulo 2^32: the implicit word size of every SHA-256 operation. -/
def w32 (x : Nat) : Nat := x % 4294967296

/-- Rotate a 32-bit word right by `n` (for `x < 2^32`, `n ≤ 32`). -/
def rotr (n x : Nat) : Nat :=
  Nat.lor (Nat.shiftRight x n) (w32 (Nat.shiftLeft x (32 - n)))

/-- UTF-8 encoding of one code point, as bytes. -/
def utf8Char (c : Char) : List Nat :=
  let n := c.toNat
  if n < 128 then [n]
  else if n < 2048 then [192 + n / 64, 128 + n % 64]
  else if n < 65536 then [224 + n / 4096, 128 + n / 64 % 64, 128 + n % 64]
  else [240 + n / 262144, 128 + n / 4096 % 64, 128 + n / 64 % 64, 128 + n % 64]

/-- UTF-8 encoding of a string, as bytes (Python's `str.encode()`). -/
def utf8 (s : String) : List Nat := s.data.flatMap utf8Char

/-- The bytes `urllib.parse.quote` leaves unescaped with the default safe set:
ASCII alphanumerics and `_.-~`. -/
def isSafeByte (b : Nat) : Bool :=
  (48 ≤ b && b ≤ 57) || (65 ≤ b && b ≤ 90) || (97 ≤ b && b ≤ 122) ||
    b == 95 || b == 46 || b == 45 || b == 126

/-- Uppercase hex digit, as used by percent-escapes. -/
def upHexChar (n : Nat) : Char := "0123456789ABCDEF".data.getD n '0'

/-- One byte under `urllib.parse.quote_plus`: safe bytes pass through, space
becomes `+`, everything else becomes `%XX`. -/
def quotePlusByte (b : Nat) : List Char :=
  if isSafeByte b then [Char.ofNat b]
  else if b == 32 then ['+']
  else ['%', upHexChar (b / 16), upHexChar (b % 16)]

/-- `urllib.parse.quote_plus` with default arguments: percent-encode the UTF-8
bytes of the string. -/
def quote_plus (s : String) : String := String.mk ((utf8 s).flatMap quotePlusByte)

/-! ## SHA-256 (FIPS 180-4) over byte lists -/

/-- The 64 SHA-256 round constants. -/
def sha256K : List Nat :=
  [1116352408, 1899447441, 3049323471, 3921009573, 961987163, 1508970993,
   2453635748, 2870763221, 3624381080, 310598401, 607225278, 1426881987,
   1925078388, 2162078206, 2614888103, 3248222580, 3835390401, 4022224774,
   264347078, 604807628, 770255983, 1249150122, 1555081692, 1996064986,
   2554220882, 2821834349, 2952996808, 3210313671, 3336571891, 3584528711,
   113926993, 338241895, 666307205, 773529912, 1294757372, 1396182291,
   1695183700, 1986661051, 2177026350, 2456956037, 2730485921, 2820302411,
   3259730800, 3345764771, 3516065817, 3600352804, 4094571909, 275423344,
   430227734, 506948616, 659060556, 883997877, 958139571, 1322822218,
   1537002063, 1747873779, 1955562222, 2024104815, 2227730452, 2361852424,
   2428436474, 2756734187, 3204031479, 3329325298]

/-- The SHA-256 initial hash state. -/
def sha256H0 : List Nat :=
  [1779033703, 3144134277, 1013904242, 2773480762,
   1359893119, 2600822924, 528734635, 1541459225]

/-- σ₀ of the message schedule. -/
def ssig0 (x : Nat) : Nat :=
  Nat.xor (Nat.xor (rotr 7 x) (rotr 18 x)) (Nat.shiftRight x 3)

/-- σ₁ of the message schedule. -/
def ssig1 (x : Nat) : Nat :=
  Nat.xor (Nat.xor (rotr 17 x) (rotr 19 x)) (Nat.shiftRight x 10)

/-- Extend the message schedule; `acc` holds the words produced so far, most
recent first, and `n` counts the words still to produce. -/
def extendSchedule : Nat → List Nat → List Nat
  | 0, acc => acc.reverse
  | n + 1, acc =>
    let g := fun i => acc.getD i 0
    let next := w32 (ssig1 (g 1) + g 6 + ssig0 (g 14) + g 15)
    extendSchedule n (next :: acc)

/-- One SHA-256 round on the 8-word working state. -/
def sha256Round (st : List Nat) (kw : Nat × Nat) : List Nat :=
  match st with
  | [a, b, c, d, e, f, g, h] =>
    let s1 := Nat.xor (Nat.xor (rotr 6 e) (rotr 11 e)) (rotr 25 e)
    let ch := Nat.xor (Nat.land e f) (Nat.land (Nat.xor e 4294967295) g)
    let t1 := w32 (h + s1 + ch + kw.1 + kw.2)
    let s0 := Nat.xor (Nat.xor (rotr 2 a) (rotr 13 a)) (rotr 22 a)
    let maj := Nat.xor (Nat.xor (Nat.land a b) (Nat.land a c)) (Nat.land b c)
    let t2 := w32 (s0 + maj)
    [w32 (t1 + t2), a, b, c, w32 (d + t1), e, f, g]
  | st => st

/-- One SHA-256 compression: fold the 64 rounds over a 16-word block and add
the result back into the chaining state. -/
def sha256Compress (h : List Nat) (block : List Nat) : List Nat :=
  let w := extendSchedule 48 block.reverse
  let st := (sha256K.zip w).foldl sha256Round h
  (h.zip st).map fun p => w32 (p.1 + p.2)

/-- `count` bytes of `n`, big-endian. -/
def toBytesBE : Nat → Nat → List Nat
  | 0, _ => []
  | k + 1, n => toBytesBE k (n / 256) ++ [n % 256]

/-- Big-endian 32-bit words from bytes (length assumed a multiple of 4). -/
def bytesToWords : List Nat → List Nat
  | b0 :: b1 :: b2 :: b3 :: rest =>
    (((b0 * 256 + b1) * 256 + b2) * 256 + b3) :: bytesToWords rest
  | _ => []

/-- Split a word list into 16-word blocks (`fuel` bounds the recursion). -/
def chunk16 : Nat → List Nat → List (List Nat)
  | 0, _ => []
  | _ + 1, [] => []
  | fuel + 1, ws => ws.take 16 :: chunk16 fuel (ws.drop 16)

/-- SHA-256 padding: `0x80`, zeros to 56 mod 64, then the bit length on
8 bytes big-endian. -/
def sha256Pad (msg : List Nat) : List Nat :=
  let len := msg.length
  let zeros := (64 - (len + 9) % 64) % 64
  msg ++ 128 :: List.replicate zeros 0 ++ toBytesBE 8 (len * 8)

/-- SHA-256 of a byte list, as its 32 digest bytes. -/
def sha256 (msg : List Nat) : List Nat :=
  let ws := bytesToWords (sha256Pad msg)
  let h := (chunk16 ws.length ws).foldl sha256Compress sha256H0
  h.flatMap fun wd => [wd / 16777216 % 256, wd / 65536 % 256, wd / 256 % 256, wd % 256]

/-- HMAC-SHA256 (RFC 2104), as computed by Python's `hmac.new(key, msg,
hashlib.sha256)`: block size 64, long keys hashed first. -/
def hmacSha256 (key msg : List Nat) : List Nat :=
  let k0 := if 64 < key.length then sha256 key else key
  let kp := k0 ++ List.replicate (64 - k0.length) 0
  sha256 ((kp.map fun b => Nat.xor b 92) ++
    sha256 ((kp.map fun b => Nat.xor b 54) ++ msg))

/-- Lowercase hex digit, as used by `.hexdigest()`. -/
def hexChar (n : Nat) : Char := "0123456789abcdef".data.getD n '0'

/-- `.hexdigest()`: the digest bytes as a lowercase hex string. -/
def hexdigest (bs : List Nat) : String :=
  String.mk (bs.flatMap fun b => [hexChar (b / 16), hexChar (b % 16)])

/-! ## Request parameters and the signer -/

/-- A Python value appearing in a request parameter map. -/
inductive Value where
  | str (s : String)
  | int (n : Int)
  deriving DecidableEq, Repr

/-- Python `str()` of a parameter value. -/
def pyStr : Value → String
  | .str s => s
  | .int n => toString n

/-- Python `'&'.join`. -/
def joinAmp : List String → String
  | [] => ""
  | [x] => x
  | x :: xs => x ++ "&" ++ joinAmp xs

/-- `urllib.parse.urlencode` with default arguments: quote_plus each key and
each stringified value, join `k=v` items with `&`, in insertion order. -/
def urlencode (params : List (String × Value)) : String :=
  joinAmp (params.map fun p => quote_plus p.1 ++ "=" ++ quote_plus (pyStr p.2))

/-- `BinanceClient._sign`: lowercase hex HMAC-SHA256 of the url-encoded
parameters, keyed by the UTF-8 bytes of the api secret. -/
def _sign (apiSecret : String) (params : List (String × Value)) : String :=
  hexdigest (hmacSha256 (utf8 apiSecret) (utf8 (urlencode params)))

/-! ## Python dict operations (insertion-ordered association lists) -/

/-- The keys of a parameter dict, in order. -/
def keys (l : List (String × Value)) : List String := l.map Prod.fst

/-- `d[k] = v` on a CPython dict: overwrite in place if `k` is present
(keeping its position), else append at the end. -/
def dictSet : List (String × Value) → String → Value → List (String × Value)
  | [], k, v => [(k, v)]
  | (k', v') :: rest, k, v =>
    if k' = k then (k', v) :: rest else (k', v') :: dictSet rest k v

/-- `d.get(k)` on a dict. -/
def dictGet : List (String × Value) → String → Option Value
  | [], _ => none
  | (k', v') :: rest, k => if k' = k then some v' else dictGet rest k

/-- The dict with every entry for key `k` removed (used only to state
properties; the code never deletes keys). -/
def removeKey (l : List (String × Value)) (k : String) : List (String × Value) :=
  l.filter fun p => p.1 != k

/-! ## JSON decoding (model of `json.loads` / `response.json()`) -/

/-- A decoded JSON document. Number lexemes are kept raw: no claim inspects
decoded payloads, only whether decoding succeeded. -/
inductive Json where
  | null
  | bool (b : Bool)
  | num (raw : String)
  | str (s : String)
  | arr (xs : List Json)
  | obj (kvs : List (String × Json))
  deriving Repr

/-- JSON insignificant whitespace. -/
def isJsonWs (c : Char) : Bool := c == ' ' || c == '\t' || c == '\n' || c == '\r'

/-- ASCII decimal digit test. -/
def isDigitChar (c : Char) : Bool := '0' ≤ c && c ≤ '9'

/-- ASCII hex digit test (for string escapes). -/
def isHexDigitChar (c : Char) : Bool :=
  isDigitChar c || ('a' ≤ c && c ≤ 'f') || ('A' ≤ c && c ≤ 'F')

/-- Parse the body of a JSON string after the opening quote; returns the
characters and the input past the closing quote. Escapes are validated and
kept verbatim (no claim looks inside decoded strings). -/
def parseJStringBody : List Char → List Char → Option (List Char × List Char)
  | acc, '"' :: rest => some (acc.reverse, rest)
  | acc, '\\' :: e :: rest =>
    if e == '"' || e == '\\' || e == '/' || e == 'b' || e == 'f' ||
        e == 'n' || e == 'r' || e == 't' then
      parseJStringBody (e :: '\\' :: acc) rest
    else if e == 'u' then
      match rest with
      | h1 :: h2 :: h3 :: h4 :: rest' =>
        if isHexDigitChar h1 && isHexDigitChar h2 && isHexDigitChar h3 &&
            isHexDigitChar h4 then
          parseJStringBody (h4 :: h3 :: h2 :: h1 :: 'u' :: '\\' :: acc) rest'
        else none
      | _ => none
    else none
  | acc, c :: rest =>
    if c.toNat < 32 then none else parseJStringBody (c :: acc) rest
  | _, [] => none

/-- Parse a JSON number at the head of the input (strict JSON grammar:
optional `-`, `0` or nonzero-led digits, optional fraction, optional
exponent); returns the lexeme and the rest. -/
def parseJNumber (cs : List Char) : Option (List Char × List Char) :=
  let (sgn, cs₁) := match cs with
    | '-' :: r => (['-'], r)
    | r => (([] : List Char), r)
  match cs₁ with
  | '0' :: r => some (sgn ++ ['0'], r)
  | c :: _ =>
    if isDigitChar c then
      some (sgn ++ cs₁.takeWhile isDigitChar, cs₁.dropWhile isDigitChar)
    else none
  | [] => none

/-- Continue a number lexeme with an optional fraction part. -/
def parseJFrac (cs : List Char) : Option (List Char × List Char) :=
  match cs with
  | '.' :: r =>
    match r with
    | c :: _ =>
      if isDigitChar c then
        some ('.' :: r.takeWhile isDigitChar, r.dropWhile isDigitChar)
      else none
    | [] => none
  | r => some ([], r)

/-- Continue a number lexeme with an optional exponent part. -/
def parseJExp (cs : List Char) : Option (List Char × List Char) :=
  match cs with
  | e :: r =>
    if e == 'e' || e == 'E' then
      let (sgn, r₁) := match r with
        | '+' :: r' => (['+'], r')
        | '-' :: r' => (['-'], r')
        | r' => (([] : List Char), r')
      match r₁ with
      | c :: _ =>
        if isDigitChar c then
          some (e :: sgn ++ r₁.takeWhile isDigitChar, r₁.dropWhile isDigitChar)
        else none
      | [] => none
    else some ([], e :: r)
  | [] => some ([], [])

mutual

/-- Parse one JSON value at the head of the input (fuel-bounded). -/
def parseJson : Nat → List Char → Option (Json × List Char)
  | 0, _ => none
  | fuel + 1, cs =>
    match cs.dropWhile isJsonWs with
    | 't' :: 'r' :: 'u' :: 'e' :: rest => some (.bool true, rest)
    | 'f' :: 'a' :: 'l' :: 's' :: 'e' :: rest => some (.bool false, rest)
    | 'n' :: 'u' :: 'l' :: 'l' :: rest => some (.null, rest)
    | 'N' :: 'a' :: 'N' :: rest => some (.num "NaN", rest)
    | 'I' :: 'n' :: 'f' :: 'i' :: 'n' :: 'i' :: 't' :: 'y' :: rest =>
      some (.num "Infinity", rest)
    | '-' :: 'I' :: 'n' :: 'f' :: 'i' :: 'n' :: 'i' :: 't' :: 'y' :: rest =>
      some (.num "-Infinity", rest)
    | '"' :: rest =>
      (parseJStringBody [] rest).map fun p => (.str (String.mk p.1), p.2)
    | '[' :: rest =>
      (match rest.dropWhile isJsonWs with
       | ']' :: rest' => some (.arr [], rest')
       | _ => (parseJElems fuel rest).map fun p => (.arr p.1, p.2))
    | '{' :: rest =>
      (match rest.dropWhile isJsonWs with
       | '}' :: rest' => some (.obj [], rest')
       | _ => (parseJMembers fuel rest).map fun p => (.obj p.1, p.2))
    | other =>
      match parseJNumber other with
      | some (lex₁, r₁) =>
        match parseJFrac r₁ with
        | some (lex₂, r₂) =>
          match parseJExp r₂ with
          | some (lex₃, r₃) => some (.num (String.mk (lex₁ ++ lex₂ ++ lex₃)), r₃)
          | none => none
        | none => none
      | none => none

/-- Parse a non-empty comma-separated list of array elements, up to and
including the closing bracket. -/
def parseJElems : Nat → List Char → Option (List Json × List Char)
  | 0, _ => none
  | fuel + 1, cs =>
    match parseJson fuel cs with
    | some (v, rest) =>
      match rest.dropWhile isJsonWs with
      | ',' :: rest' =>
        (parseJElems fuel rest').map fun p => (v :: p.1, p.2)
      | ']' :: rest' => some ([v], rest')
      | _ => none
    | none => none

/-- Parse a non-empty comma-separated list of object members, up to and
including the closing brace. -/
def parseJMembers : Nat → List Char → Option (List (String × Json) × List Char)
  | 0, _ => none
  | fuel + 1, cs =>
    match cs.dropWhile isJsonWs with
    | '"' :: rest =>
      match parseJStringBody [] rest with
      | some (k, rest₁) =>
        match rest₁.dropWhile isJsonWs with
        | ':' :: rest₂ =>
          match parseJson fuel rest₂ with
          | some (v, rest₃) =>
            match rest₃.dropWhile isJsonWs with
            | ',' :: rest₄ =>
              (parseJMembers fuel rest₄).map fun p =>
                ((String.mk k, v) :: p.1, p.2)
            | '}' :: rest₄ => some ([(String.mk k, v)], rest₄)
            | _ => none
          | none => none
        | _ => none
      | none => none
    | _ => none

end

/-- `json.loads` on a response body: parse one JSON document surrounded only
by whitespace; `none` models the `ValueError` raised on invalid input. -/
def jsonDecode (s : String) : Option Json :=
  match parseJson (s.data.length + 1) s.data with
  | some (v, rest) => if rest.dropWhile isJsonWs = [] then some v else none
  | none => none

/-! ## The request dispatcher and order builders -/

/-- What one HTTP dispatch does: either raise
`requests.exceptions.RequestException` (with a message — the underlying
cause), or produce a response with a status code and a body text. -/
inductive HttpOutcome where
  | exn (e : String)
  | resp (status : Nat) (body : String)

/-- `BinanceClient.BASE_URL`. -/
def BASE_URL : String := "https://testnet.binancefuture.com"

/-- Lines 54–57 of `src/app.py`: set `params["timestamp"]`, set
`params["recvWindow"] = 5000`, then set `params["signature"]` to the
signature of the dict as it stands at that point (timestamp and recvWindow
already in, signature itself not yet). -/
def signParams (apiSecret : String) (now : Int)
    (params : List (String × Value)) : List (String × Value) :=
  let p := dictSet params "timestamp" (.int now)
  let p := dictSet p "recvWindow" (.int 5000)
  dictSet p "signature" (.str (_sign apiSecret p))

/-- `BinanceClient.request`. The api secret, the current epoch-millisecond
clock and the HTTP layer are explicit arguments; the Python method returns
either the decoded JSON payload or `None` (on `RequestException` and on
`ValueError` from `response.json()` alike), and mutates the caller's `params`
dict in place — here the final parameter dict is the second component of the
result (the same dict is returned whatever the dispatch outcome, as in the
source, where the mutation precedes the dispatch). -/
def request (apiSecret : String) (now : Int)
    (transport : String → String → List (String × Value) → HttpOutcome)
    (method path : String) (params? : Option (List (String × Value)))
    (signed : Bool) : Option Json × List (String × Value) :=
  let params := params?.getD []
  let params := if signed then signParams apiSecret now params else params
  let url := BASE_URL ++ path
  let result :=
    match transport method url params with
    | .exn _ => none
    | .resp _ body =>
      match jsonDecode body with
      | none => none
      | some data => some data
  (result, params)

/-- `BinanceClient.market_order`. -/
def market_order (apiSecret : String) (now : Int)
    (transport : String → String → List (String × Value) → HttpOutcome)
    (symbol side : String) (qty : Value) : Option Json × List (String × Value) :=
  let params := [("symbol", Value.str symbol), ("side", Value.str side),
                 ("type", Value.str "MARKET"), ("quantity", qty)]
  request apiSecret now transport "POST" "/fapi/v1/order" (some params) true

/-- `BinanceClient.limit_order`. -/
def limit_order (apiSecret : String) (now : Int)
    (transport : String → String → List (String × Value) → HttpOutcome)
    (symbol side : String) (qty price : Value) :
    Option Json × List (String × Value) :=
  let params := [("symbol", Value.str symbol), ("side", Value.str side),
                 ("type", Value.str "LIMIT"), ("timeInForce", Value.str "GTC"),
                 ("quantity", qty), ("price", price)]
  request apiSecret now transport "POST" "/fapi/v1/order" (some params) true

/-! ## Validators -/

/-- `str.isalnum`: non-empty and every character alphanumeric (modelled over
the ASCII classes; see the header). -/
def pyIsAlnum (s : String) : Bool :=
  !s.data.isEmpty && s.data.all Char.isAlphanum

/-- `str.endswith`. -/
def pyEndsWith (s suf : String) : Bool := suf.data.isSuffixOf s.data

/-- `validate_symbol` from `src/app.py` (the logging call has no effect on
the returned value and is omitted). -/
def validate_symbol (symbol : String) : Bool :=
  pyIsAlnum symbol && pyEndsWith symbol "USDT"

/-! ## Python `float()` on strings -/

/-- The result of a successful `float(s)`: a finite value (kept as the exact
rational the literal denotes), an infinity, or nan. -/
inductive PyFloat where
  | finite (q : ℚ)
  | posInf
  | negInf
  | nan
  deriving DecidableEq, Repr

/-- The whitespace `float()` strips from both ends (ASCII part). -/
def isPySpace (c : Char) : Bool :=
  c == ' ' || c == '\t' || c == '\n' || c == '\r' ||
    c == Char.ofNat 11 || c == Char.ofNat 12

/-- ASCII lowercasing, for the case-insensitive `inf` / `nan` forms. -/
def asciiLower (c : Char) : Char :=
  if 'A' ≤ c && c ≤ 'Z' then Char.ofNat (c.toNat + 32) else c

/-- Consume a run of digits in which an underscore must sit between two
digits (CPython's numeric-literal underscore rule); the accumulator holds the
digits seen so far, reversed. Returns the digits and the unconsumed rest, or
`none` on a misplaced underscore. -/
def udigitsAux : List Char → List Char → Option (List Char × List Char)
  | acc, [] => some (acc.reverse, [])
  | acc, '_' :: rest =>
    match rest with
    | c :: rest' =>
      if isDigitChar c then udigitsAux (c :: acc) rest' else none
    | [] => none
  | acc, c :: rest =>
    if isDigitChar c then udigitsAux (c :: acc) rest
    else some (acc.reverse, c :: rest)

/-- Consume a digit run that must start with a digit. -/
def parseUDigits : List Char → Option (List Char × List Char)
  | c :: rest => if isDigitChar c then udigitsAux [c] rest else none
  | [] => none

/-- Digits to a natural number. -/
def digitsToNat (ds : List Char) : Nat :=
  ds.foldl (fun a c => a * 10 + (c.toNat - 48)) 0

/-- Parse the optional fraction digits after the decimal point ("1." is a
valid literal, so an empty run is allowed when no digit follows). -/
def parseFracOpt : List Char → Option (List Char × List Char)
  | c :: rest =>
    if isDigitChar c then udigitsAux [c] rest else some ([], c :: rest)
  | [] => some ([], [])

/-- Parse the optional exponent, which must consume the whole rest. -/
def parseExpPart : List Char → Option Int
  | [] => some 0
  | e :: rest =>
    if e == 'e' || e == 'E' then
      let (sgn, rest') : Int × List Char := match rest with
        | '+' :: r => (1, r)
        | '-' :: r => (-1, r)
        | r => (1, r)
      match parseUDigits rest' with
      | some (ds, []) => some (sgn * (digitsToNat ds : Int))
      | _ => none
    else none

/-- The rational denoted by integer digits, fraction digits and a decimal
exponent: `(I.F) × 10^e`, built with `mkRat` over natural-number arithmetic
so that it evaluates by kernel reduction. -/
def decimalValue (ids fds : List Char) (e : Int) : ℚ :=
  mkRat (((digitsToNat ids * 10 ^ fds.length + digitsToNat fds) *
      10 ^ e.toNat : Nat) : Int)
    (10 ^ fds.length * 10 ^ (-e).toNat)

/-- Parse an unsigned decimal float literal (the whole input must be
consumed). -/
def parseDecimal (cs : List Char) : Option ℚ :=
  match cs with
  | '.' :: rest =>
    match parseUDigits rest with
    | some (fds, rest') => (parseExpPart rest').map (decimalValue [] fds)
    | none => none
  | _ =>
    match parseUDigits cs with
    | some (ids, rest) =>
      match rest with
      | '.' :: rest' =>
        match parseFracOpt rest' with
        | some (fds, rest'') => (parseExpPart rest'').map (decimalValue ids fds)
        | none => none
      | _ => (parseExpPart rest).map (decimalValue ids [])
    | none => none

/-- `float(s)` for a string `s`: strip whitespace, take an optional sign,
then either a case-insensitive `inf` / `infinity` / `nan` or a decimal
literal; `none` models the `ValueError`. -/
def pyFloat (s : String) : Option PyFloat :=
  let cs := ((s.data.dropWhile isPySpace).reverse.dropWhile isPySpace).reverse
  let (neg, cs) : Bool × List Char := match cs with
    | '+' :: r => (false, r)
    | '-' :: r => (true, r)
    | r => (false, r)
  let low := cs.map asciiLower
  if low = "inf".data ∨ low = "infinity".data then
    some (if neg then .negInf else .posInf)
  else if low = "nan".data then some .nan
  else
    match parseDecimal cs with
    | some q => some (.finite (if neg then -q else q))
    | none => none

/-- Python `v > 0` on the result of `float()`: positive finite values and
`inf` compare greater than zero; `nan > 0` is false. -/
def pyGtZero : PyFloat → Bool
  | .finite q => decide (0 < q)
  | .posInf => true
  | .negInf => false
  | .nan => false

/-- `validate_quantity` from `src/app.py`: `float(qty) > 0`, and `False` when
`float` raises (the logging call is omitted). -/
def validate_quantity (qty : String) : Bool :=
  match pyFloat qty with
  | some v => pyGtZero v
  | none => false

/-- `validate_price` from `src/app.py`: the same computation as
`validate_quantity`. -/
def validate_price (price : String) : Bool :=
  match pyFloat price with
  | some v => pyGtZero v
  | none => false

/-! ## Spec-side formulations (for the refinement claims)

These definitions follow the words of the specification rather than the
source, and exist to be compared with the source-derived definitions
above. -/

/-- Spec §4.1, the serialization the signer is claimed to apply:
`key1=value1&key2=value2…`, values URL-percent-encoded, keys in their
original insertion order — not sorted. -/
def specSerialize : List (String × Value) → String
  | [] => ""
  | [p] => quote_plus p.1 ++ "=" ++ quote_plus (pyStr p.2)
  | p :: rest =>
    quote_plus p.1 ++ "=" ++ quote_plus (pyStr p.2) ++ "&" ++ specSerialize rest

/-- Spec §4.1, a lowercase hex digit stated arithmetically: code points
48–57 for 0–9 and 97–102 for a–f. -/
def specHexChar (n : Nat) : Char :=
  if n < 10 then Char.ofNat (48 + n) else Char.ofNat (87 + n)

/-- Spec §4.1, lowercase hex encoding of a digest, two digits per byte,
high nibble first. -/
def specHex (bs : List Nat) : String :=
  String.mk (bs.flatMap fun b => [specHexChar (b / 16), specHexChar (b % 16)])

/-- Spec §4.1, the claimed output of the signer: lowercase hex HMAC-SHA256,
keyed by the secret, over the UTF-8 bytes of the serialized parameters. -/
def specSign (secret : String) (params : List (String × Value)) : String :=
  specHex (hmacSha256 (utf8 secret) (utf8 (specSerialize params)))

/-- The acceptance predicate claim C6 states for `ValidateQuantity`: the
input parses as a finite decimal number strictly greater than zero
(infinities and nan are not finite, so they are not accepted). -/
def finiteDecimalGtZero (q : String) : Bool :=
  match pyFloat q with
  | some (.finite r) => decide (0 < r)
  | _ => false

/-! ## Dict lemmas -/

theorem mem_keys_dictSet (l : List (String × Value)) (k k' : String) (v : Value) :
    k' ∈ keys (dictSet l k v) ↔ k' ∈ keys l ∨ k' = k := by
  induction l with
  | nil => simp [dictSet, keys]
  | cons p rest ih =>
    by_cases h : p.1 = k
    · cases p; simp_all [dictSet, keys]
    · cases p; simp [dictSet, keys, h] at ih ⊢; rw [ih]; tauto

theorem dictSet_of_not_mem (l : List (String × Value)) (k : String) (v : Value)
    (h : k ∉ keys l) : dictSet l k v = l ++ [(k, v)] := by
  induction l with
  | nil => rfl
  | cons p rest ih =>
    simp only [keys, List.map_cons, List.mem_cons] at h
    push_neg at h
    cases p
    simp only [dictSet, List.cons_append]
    rw [if_neg (fun hh => h.1 hh.symm), ih (by simpa [keys] using h.2)]

theorem dictGet_dictSet_self (l : List (String × Value)) (k : String) (v : Value) :
    dictGet (dictSet l k v) k = some v := by
  induction l with
  | nil => simp [dictSet, dictGet]
  | cons p rest ih =>
    cases p with
    | mk k' v' =>
      by_cases h : k' = k
      · simp [dictSet, dictGet, h]
      · simp [dictSet, dictGet, h, ih]

theorem dictGet_dictSet_ne (l : List (String × Value)) (k k' : String) (v : Value)
    (h : k ≠ k') : dictGet (dictSet l k' v) k = dictGet l k := by
  induction l with
  | nil => simp [dictSet, dictGet, Ne.symm h]
  | cons p rest ih =>
    cases p with
    | mk k₀ v₀ =>
      by_cases h0 : k₀ = k'
      · subst h0; simp [dictSet, dictGet, Ne.symm h]
      · by_cases h1 : k₀ = k <;> simp [dictSet, dictGet, h0, h1, h, ih]

theorem dictGet_append (l l' : List (String × Value)) (k : String) :
    dictGet (l ++ l') k =
      match dictGet l k with
      | some v => some v
      | none => dictGet l' k := by
  induction l with
  | nil => simp [dictGet]
  | cons p rest ih =>
    cases p with
    | mk k₀ v₀ =>
      by_cases h : k₀ = k
      · simp [dictGet, h]
      · simp [dictGet, h, ih]

theorem dictGet_eq_none_of_not_mem (l : List (String × Value)) (k : String)
    (h : k ∉ keys l) : dictGet l k = none := by
  induction l with
  | nil => rfl
  | cons p rest ih =>
    cases p with
    | mk k₀ v₀ =>
      simp only [keys, List.map_cons, List.mem_cons] at h
      push_neg at h
      simp [dictGet, Ne.symm h.1, ih (by simpa [keys] using h.2)]

theorem removeKey_of_not_mem (l : List (String × Value)) (k : String)
    (h : k ∉ keys l) : removeKey l k = l := by
  induction l with
  | nil => rfl
  | cons p rest ih =>
    cases p with
    | mk k₀ v₀ =>
      simp only [keys, List.map_cons, List.mem_cons] at h
      push_neg at h
      have h1 : ((k₀, v₀).1 != k) = true := by
        simp only [bne_iff_ne]
        exact Ne.symm h.1
      simp only [removeKey, List.filter_cons, h1, if_pos]
      have ih' := ih (by simpa [keys] using h.2)
      simp only [removeKey] at ih'
      rw [ih']

theorem removeKey_append (l l' : List (String × Value)) (k : String) :
    removeKey (l ++ l') k = removeKey l k ++ removeKey l' k := by
  simp [removeKey, List.filter_append]

/-! ## The signer refines the spec formulation (claim C2) -/

theorem urlencode_eq_spec : ∀ P, urlencode P = specSerialize P
  | [] => rfl
  | [_] => rfl
  | p :: q :: rest => by
    have ih := urlencode_eq_spec (q :: rest)
    calc urlencode (p :: q :: rest)
        = quote_plus p.1 ++ "=" ++ quote_plus (pyStr p.2) ++ "&" ++
            urlencode (q :: rest) := rfl
      _ = quote_plus p.1 ++ "=" ++ quote_plus (pyStr p.2) ++ "&" ++
            specSerialize (q :: rest) := by rw [ih]
      _ = specSerialize (p :: q :: rest) := rfl

theorem sha256_bytes_lt (msg : List Nat) : ∀ b ∈ sha256 msg, b < 256 := by
  intro b hb
  simp only [sha256, List.mem_flatMap] at hb
  obtain ⟨wd, _, hmem⟩ := hb
  simp only [List.mem_cons, List.not_mem_nil, or_false] at hmem
  rcases hmem with h | h | h | h <;> subst h <;> exact Nat.mod_lt _ (by norm_num)

theorem hmacSha256_bytes_lt (key msg : List Nat) :
    ∀ b ∈ hmacSha256 key msg, b < 256 := by
  intro b hb
  simp only [hmacSha256] at hb
  exact sha256_bytes_lt _ b hb

theorem hexChar_eq_specHexChar : ∀ n, n < 16 → hexChar n = specHexChar n := by
  decide

theorem flatMapHex_eq : ∀ (bs : List Nat), (∀ b ∈ bs, b < 256) →
    bs.flatMap (fun b => [hexChar (b / 16), hexChar (b % 16)]) =
      bs.flatMap (fun b => [specHexChar (b / 16), specHexChar (b % 16)])
  | [], _ => rfl
  | b :: rest, h => by
    have hb : b < 256 := h b (by simp)
    simp only [List.flatMap_cons]
    rw [hexChar_eq_specHexChar (b / 16) (by omega),
        hexChar_eq_specHexChar (b % 16) (by omega),
        flatMapHex_eq rest (fun x hx => h x (by simp [hx]))]

theorem hexdigest_eq_specHex (bs : List Nat) (h : ∀ b ∈ bs, b < 256) :
    hexdigest bs = specHex bs :=
  congrArg String.mk (flatMapHex_eq bs h)

theorem hexdigest_all_lowerhex : ∀ (bs : List Nat), (∀ b ∈ bs, b < 256) →
    ((hexdigest bs).data.all fun c => c.isDigit || ('a' ≤ c && c ≤ 'f')) = true
  | [], _ => rfl
  | b :: rest, h => by
    have hb : b < 256 := h b (by simp)
    have h16 : ∀ n, n < 16 →
        ((hexChar n).isDigit || ('a' ≤ hexChar n && hexChar n ≤ 'f')) = true := by
      decide
    have ih := hexdigest_all_lowerhex rest (fun x hx => h x (by simp [hx]))
    simp only [hexdigest, List.flatMap_cons, List.all_append, List.all_cons,
      List.all_nil, Bool.and_true] at ih ⊢
    rw [h16 (b / 16) (by omega), h16 (b % 16) (by omega), ih]
    rfl

/-- C2: for every ordered parameter mapping and secret, `_sign` returns
exactly the spec's formulation — the lowercase hex encoding of the
HMAC-SHA256 digest keyed by the UTF-8 bytes of the secret, applied to the
UTF-8 bytes of the parameters serialized as `key1=value1&key2=value2…` with
percent-encoded values and keys in insertion order (not sorted) — and every
character of the output is a digit or a lowercase `a`–`f`. -/
theorem sign_is_lowercase_hex_hmac_of_ordered_query (S : String)
    (P : List (String × Value)) :
    _sign S P = specSign S P ∧
    ((_sign S P).data.all fun c => c.isDigit || ('a' ≤ c && c ≤ 'f')) = true := by
  constructor
  · unfold _sign specSign
    rw [urlencode_eq_spec]
    exact hexdigest_eq_specHex _ (hmacSha256_bytes_lt _ _)
  · unfold _sign
    exact hexdigest_all_lowerhex _ (hmacSha256_bytes_lt _ _)

/-! ## Error handling (claims C3 and C4) -/

/-- C3 (amended): on a transport-level failure the exception is caught — it
never propagates past `request` — but the code returns Python's `None`
rather than a typed NetworkError: the first component of the result is
`none` whatever the cause, for `request` and hence for `market_order` and
`limit_order`. -/
theorem transport_failure_returns_none (apiSecret : String) (now : Int)
    (e method path symbol side : String)
    (P? : Option (List (String × Value))) (signed : Bool) (qty price : Value) :
    (request apiSecret now (fun _ _ _ => .exn e) method path P? signed).1 = none ∧
    (market_order apiSecret now (fun _ _ _ => .exn e) symbol side qty).1 = none ∧
    (limit_order apiSecret now (fun _ _ _ => .exn e) symbol side qty price).1 =
      none :=
  ⟨rfl, rfl, rfl⟩

/-- C3 (counterexample to the claim as stated): the value returned on a
connection failure is the same `none` returned for a different cause and for
a JSON-decode failure — it is no typed NetworkError, carries no underlying
cause, and is not distinguishable from a decode failure. -/
theorem transport_failure_result_carries_no_cause :
    (request "k" 1 (fun _ _ _ => .exn "connection refused") "POST"
        "/fapi/v1/order" (some []) true).1 =
      (request "k" 1 (fun _ _ _ => .exn "timed out") "POST"
        "/fapi/v1/order" (some []) true).1 ∧
    (request "k" 1 (fun _ _ _ => .exn "connection refused") "POST"
        "/fapi/v1/order" (some []) true).1 =
      (request "k" 1 (fun _ _ _ => .resp 200 "not json") "POST"
        "/fapi/v1/order" (some []) true).1 :=
  ⟨rfl, rfl⟩

/-- C4 (amended): when the dispatch succeeds but the body is not valid JSON,
the `ValueError` from `response.json()` is caught and the call returns
Python's `None` — not a typed DecodeError: neither the raw body nor the
status code is carried. -/
theorem invalid_json_returns_none (apiSecret : String) (now : Int)
    (method path : String) (P? : Option (List (String × Value))) (signed : Bool)
    (status : Nat) (body : String) (h : jsonDecode body = none) :
    (request apiSecret now (fun _ _ _ => .resp status body) method path P?
      signed).1 = none := by
  simp only [request, h]

/-- Witness for C4 at the spec's own example: HTTP 200 with body
`"not json"`. -/
theorem invalid_json_returns_none_witness :
    jsonDecode "not json" = none ∧
    (request "k" 1 (fun _ _ _ => .resp 200 "not json") "POST" "/fapi/v1/order"
      (some []) true).1 = none :=
  ⟨rfl, invalid_json_returns_none "k" 1 "POST" "/fapi/v1/order" (some []) true
    200 "not json" rfl⟩

/-- C4 (counterexample to the claim as stated): for HTTP 200 with body
`"not json"` the call returns `none` — equal to the network-failure result
and to the result for a different status and body, so nothing of the raw
body or the status code is carried and the outcome is not distinguishable
from a NetworkError. -/
theorem invalid_json_result_carries_no_body_or_status :
    (request "k" 1 (fun _ _ _ => .resp 200 "not json") "POST" "/fapi/v1/order"
        (some []) true).1 =
      (request "k" 1 (fun _ _ _ => .exn "boom") "POST" "/fapi/v1/order"
        (some []) true).1 ∧
    (request "k" 1 (fun _ _ _ => .resp 200 "not json") "POST" "/fapi/v1/order"
        (some []) true).1 =
      (request "k" 1 (fun _ _ _ => .resp 500 "also not json") "POST"
        "/fapi/v1/order" (some []) true).1 :=
  ⟨rfl, rfl⟩

/-! ## Validators (claims C5 and C6) -/

/-- C5: `validate_symbol s` is true iff `s` consists only of alphanumeric
characters and ends with the literal suffix "USDT"; the spec's four examples
behave as stated (case-sensitive, no normalization). -/
theorem validate_symbol_iff_alnum_and_usdt_suffix :
    (∀ s : String, validate_symbol s = true ↔
      ((∀ c ∈ s.data, c.isAlphanum = true) ∧ "USDT".data <:+ s.data)) ∧
    validate_symbol "BTCUSDT" = true ∧ validate_symbol "btcusdt" = false ∧
    validate_symbol "BTC-USDT" = false ∧ validate_symbol "BTCUSD" = false := by
  refine ⟨?_, by decide, by decide, by decide, by decide⟩
  intro s
  unfold validate_symbol pyIsAlnum pyEndsWith
  rw [Bool.and_eq_true, Bool.and_eq_true, List.all_eq_true]
  constructor
  · rintro ⟨⟨-, hall⟩, hsuf⟩
    exact ⟨hall, List.isSuffixOf_iff_suffix.mp hsuf⟩
  · rintro ⟨hall, hsuf⟩
    have hne : s.data ≠ [] := by
      intro h0
      rw [h0, List.suffix_nil] at hsuf
      simp at hsuf
    exact ⟨⟨by simpa [List.isEmpty_iff] using hne, hall⟩,
      List.isSuffixOf_iff_suffix.mpr hsuf⟩

/-- C6 (counterexample to the claim as stated): `float("inf")` succeeds in
Python and `inf > 0` is true, so `validate_quantity "inf"` returns true even
though `"inf"` does not parse as a finite decimal number. -/
theorem validate_quantity_inf_cex :
    validate_quantity "inf" = true ∧ finiteDecimalGtZero "inf" = false := by
  constructor <;> rfl

/-- C6 (amended): `validate_quantity q` is true iff `q` parses under
Python's `float()` and the parsed value compares strictly greater than zero
— that is, iff it is a finite decimal strictly greater than zero or
(case-insensitively) positive infinity; nan, non-positive values and parse
failures are rejected. `validate_price` computes exactly the same function,
and the spec's four examples hold. -/
theorem validate_quantity_accepts_positive_floats_and_posinf :
    (∀ q : String, validate_quantity q = true ↔
      (pyFloat q = some .posInf ∨
        ∃ r : ℚ, pyFloat q = some (.finite r) ∧ 0 < r)) ∧
    (∀ q : String, validate_price q = validate_quantity q) ∧
    validate_quantity "1.5" = true ∧ validate_quantity "0" = false ∧
    validate_quantity "-3" = false ∧ validate_quantity "abc" = false := by
  refine ⟨?_, fun q => rfl, by decide, by decide, by decide, by decide⟩
  intro q
  unfold validate_quantity
  cases hpf : pyFloat q with
  | none => simp
  | some v => cases v <;> simp [pyGtZero]

/-! ## Order builders (claim C7) -/

/-- C7: `market_order` builds exactly the four-field map `{symbol, side,
type: "MARKET", quantity}` and `limit_order` exactly the six-field map
`{symbol, side, type: "LIMIT", timeInForce: "GTC", quantity, price}`, each
dispatched through `request` with POST `/fapi/v1/order` and signing
required; the dispatched (final) parameter list starts with exactly the
built map, in order. -/
theorem order_builders_build_exact_params_and_sign (apiSecret : String)
    (now : Int)
    (transport : String → String → List (String × Value) → HttpOutcome)
    (symbol side : String) (qty price : Value) :
    market_order apiSecret now transport symbol side qty =
      request apiSecret now transport "POST" "/fapi/v1/order"
        (some [("symbol", .str symbol), ("side", .str side),
               ("type", .str "MARKET"), ("quantity", qty)]) true ∧
    limit_order apiSecret now transport symbol side qty price =
      request apiSecret now transport "POST" "/fapi/v1/order"
        (some [("symbol", .str symbol), ("side", .str side),
               ("type", .str "LIMIT"), ("timeInForce", .str "GTC"),
               ("quantity", qty), ("price", price)]) true ∧
    (market_order apiSecret now transport symbol side qty).2.take 4 =
      [("symbol", .str symbol), ("side", .str side),
       ("type", .str "MARKET"), ("quantity", qty)] ∧
    (limit_order apiSecret now transport symbol side qty price).2.take 6 =
      [("symbol", .str symbol), ("side", .str side),
       ("type", .str "LIMIT"), ("timeInForce", .str "GTC"),
       ("quantity", qty), ("price", price)] :=
  ⟨rfl, rfl, rfl, rfl⟩

/-! ## Signer ordering sensitivity and determinism (claims C8 and C9) -/

set_option maxRecDepth 100000 in
/-- C8: the signer is ordering-sensitive: there are a secret and a
parameter map with two keys whose two insertion orders (the same key-value
pairs) produce different signatures — the signer does not sort. -/
theorem sign_depends_on_insertion_order :
    ∃ (S : String) (P P' : List (String × Value)),
      P.Perm P' ∧ 2 ≤ P.length ∧ P ≠ P' ∧ _sign S P ≠ _sign S P' := by
  refine ⟨"k", [("a", .str "1"), ("b", .str "2")],
    [("b", .str "2"), ("a", .str "1")], ?_, ?_, ?_, ?_⟩
  · decide
  · decide
  · decide
  · decide

/-- C9: `_sign` is a deterministic function of its arguments — two
invocations on identical ordered input yield the identical hex string. -/
theorem sign_deterministic (S₁ S₂ : String) (P₁ P₂ : List (String × Value))
    (hS : S₁ = S₂) (hP : P₁ = P₂) : _sign S₁ P₁ = _sign S₂ P₂ := by
  rw [hS, hP]

/-- Witness for C9 at a concrete secret and parameter map. -/
theorem sign_deterministic_witness :
    "k" = "k" ∧
    _sign "k" [("a", Value.str "1")] = _sign "k" [("a", Value.str "1")] :=
  ⟨rfl, sign_deterministic "k" "k" [("a", Value.str "1")]
    [("a", Value.str "1")] rfl rfl⟩

/-! ## Signed-request injection (claims C1 and C10) -/

theorem keys_append (l l' : List (String × Value)) :
    keys (l ++ l') = keys l ++ keys l' := by
  simp [keys]

/-- C1 (amended): for a signed request whose caller-supplied parameter map
does not already contain a "signature" key, the dispatched parameter dict
carries `timestamp = now`, `recvWindow = 5000`, and a signature equal to
`_sign` applied to exactly the final parameter set minus the signature field
itself (timestamp and recvWindow included). -/
theorem signed_request_injects_and_signs_final_params (apiSecret : String)
    (now : Int)
    (transport : String → String → List (String × Value) → HttpOutcome)
    (method path : String) (P : List (String × Value))
    (h : "signature" ∉ keys P) :
    dictGet (request apiSecret now transport method path (some P) true).2
        "timestamp" = some (.int now) ∧
    dictGet (request apiSecret now transport method path (some P) true).2
        "recvWindow" = some (.int 5000) ∧
    dictGet (request apiSecret now transport method path (some P) true).2
        "signature" = some (.str (_sign apiSecret
          (removeKey (request apiSecret now transport method path (some P)
            true).2 "signature"))) := by
  have hsnd : (request apiSecret now transport method path (some P) true).2 =
      signParams apiSecret now P := rfl
  set p2 := dictSet (dictSet P "timestamp" (.int now)) "recvWindow"
    (.int 5000) with hp2
  have hsig : "signature" ∉ keys p2 := by
    rw [hp2]
    intro hmem
    rcases (mem_keys_dictSet _ _ _ _).1 hmem with hmem1 | heq
    · rcases (mem_keys_dictSet _ _ _ _).1 hmem1 with hmem0 | heq0
      · exact h hmem0
      · exact absurd heq0 (by decide)
    · exact absurd heq (by decide)
  have hfin : signParams apiSecret now P =
      p2 ++ [("signature", Value.str (_sign apiSecret p2))] := by
    simp only [signParams]
    rw [← hp2]
    exact dictSet_of_not_mem _ _ _ hsig
  have hts : dictGet p2 "timestamp" = some (.int now) := by
    rw [hp2, dictGet_dictSet_ne _ _ _ _ (by decide), dictGet_dictSet_self]
  have hrw : dictGet p2 "recvWindow" = some (.int 5000) := by
    rw [hp2, dictGet_dictSet_self]
  refine ⟨?_, ?_, ?_⟩
  · rw [hsnd, hfin, dictGet_append, hts]
  · rw [hsnd, hfin, dictGet_append, hrw]
  · rw [hsnd, hfin, dictGet_append, dictGet_eq_none_of_not_mem _ _ hsig,
      removeKey_append, removeKey_of_not_mem _ _ hsig]
    simp [dictGet, removeKey, List.filter]

/-- Witness for C1: a market-order-shaped parameter map, a concrete clock
and a failing transport. -/
theorem signed_request_injects_and_signs_final_params_witness :
    "signature" ∉ keys [("symbol", Value.str "BTCUSDT")] ∧
    (dictGet (request "k" 1 (fun _ _ _ => HttpOutcome.exn "boom") "POST"
        "/fapi/v1/order" (some [("symbol", Value.str "BTCUSDT")]) true).2
        "timestamp" = some (.int 1) ∧
     dictGet (request "k" 1 (fun _ _ _ => HttpOutcome.exn "boom") "POST"
        "/fapi/v1/order" (some [("symbol", Value.str "BTCUSDT")]) true).2
        "recvWindow" = some (.int 5000) ∧
     dictGet (request "k" 1 (fun _ _ _ => HttpOutcome.exn "boom") "POST"
        "/fapi/v1/order" (some [("symbol", Value.str "BTCUSDT")]) true).2
        "signature" = some (.str (_sign "k"
          (removeKey (request "k" 1 (fun _ _ _ => HttpOutcome.exn "boom")
            "POST" "/fapi/v1/order" (some [("symbol", Value.str "BTCUSDT")])
            true).2 "signature")))) :=
  ⟨by decide, signed_request_injects_and_signs_final_params "k" 1
    (fun _ _ _ => HttpOutcome.exn "boom") "POST" "/fapi/v1/order"
    [("symbol", Value.str "BTCUSDT")] (by decide)⟩

set_option maxRecDepth 1000000 in
/-- C1 (counterexample to the claim as stated): when the caller's map
already contains a "signature" key, the injected signature is computed over
a parameter set that still includes the stale signature pair, so it is not
`Sign(secret, P')` for `P'` the final set minus the signature field. -/
theorem signed_request_presigned_signature_cex :
    dictGet (request "k" 1 (fun _ _ _ => HttpOutcome.exn "boom") "POST"
        "/fapi/v1/order" (some [("signature", Value.str "x")]) true).2
        "signature" ≠
      some (.str (_sign "k" (removeKey (request "k" 1
        (fun _ _ _ => HttpOutcome.exn "boom") "POST" "/fapi/v1/order"
        (some [("signature", Value.str "x")]) true).2 "signature"))) := by
  decide

/-- C10 (amended): a signed request appends exactly the three entries
`timestamp = now`, `recvWindow = 5000` and `signature` to the caller's
parameter list — leaving every caller-supplied key-value pair unchanged and
in place — whatever the transport outcome, provided the caller's map does
not already use one of the three injected keys. -/
theorem signed_request_appends_fields_preserving_params (apiSecret : String)
    (now : Int)
    (transport : String → String → List (String × Value) → HttpOutcome)
    (method path : String) (P : List (String × Value))
    (ht : "timestamp" ∉ keys P) (hr : "recvWindow" ∉ keys P)
    (hs : "signature" ∉ keys P) :
    (request apiSecret now transport method path (some P) true).2 =
      P ++ [("timestamp", .int now), ("recvWindow", .int 5000),
            ("signature", .str (_sign apiSecret
              (P ++ [("timestamp", .int now),
                     ("recvWindow", .int 5000)])))] := by
  have hsnd : (request apiSecret now transport method path (some P) true).2 =
      signParams apiSecret now P := rfl
  have hr' : "recvWindow" ∉ keys (P ++ [("timestamp", Value.int now)]) := by
    rw [keys_append]
    intro hmem
    rcases List.mem_append.1 hmem with hm | hm
    · exact hr hm
    · simp only [keys, List.map_cons, List.map_nil, List.mem_singleton] at hm
      exact absurd hm (by decide)
  have hs' : "signature" ∉
      keys (P ++ [("timestamp", Value.int now)] ++
        [("recvWindow", Value.int 5000)]) := by
    rw [keys_append, keys_append]
    intro hmem
    rcases List.mem_append.1 hmem with hm | hm
    · rcases List.mem_append.1 hm with hm' | hm'
      · exact hs hm'
      · simp only [keys, List.map_cons, List.map_nil,
          List.mem_singleton] at hm'
        exact absurd hm' (by decide)
    · simp only [keys, List.map_cons, List.map_nil, List.mem_singleton] at hm
      exact absurd hm (by decide)
  rw [hsnd]
  simp only [signParams]
  rw [dictSet_of_not_mem _ _ _ ht, dictSet_of_not_mem _ _ _ hr',
    dictSet_of_not_mem _ _ _ hs']
  simp [List.append_assoc]

/-- Witness for C10 at a market-order-shaped parameter map. -/
theorem signed_request_appends_fields_preserving_params_witness :
    ("timestamp" ∉ keys [("symbol", Value.str "BTCUSDT")] ∧
     "recvWindow" ∉ keys [("symbol", Value.str "BTCUSDT")] ∧
     "signature" ∉ keys [("symbol", Value.str "BTCUSDT")]) ∧
    (request "k" 1 (fun _ _ _ => HttpOutcome.exn "boom") "POST"
        "/fapi/v1/order" (some [("symbol", Value.str "BTCUSDT")]) true).2 =
      [("symbol", Value.str "BTCUSDT")] ++
        [("timestamp", .int 1), ("recvWindow", .int 5000),
         ("signature", .str (_sign "k"
           ([("symbol", Value.str "BTCUSDT")] ++
             [("timestamp", .int 1), ("recvWindow", .int 5000)])))] :=
  ⟨⟨by decide, by decide, by decide⟩,
    signed_request_appends_fields_preserving_params "k" 1
      (fun _ _ _ => HttpOutcome.exn "boom") "POST" "/fapi/v1/order"
      [("symbol", Value.str "BTCUSDT")] (by decide) (by decide) (by decide)⟩

/-- C10 (counterexample to the claim as stated): when the caller's map
already contains a "timestamp" key, its pair is overwritten rather than
preserved: after the call the dict no longer maps "timestamp" to the
original value. -/
theorem signed_request_overwrites_preexisting_timestamp_cex :
    dictGet (request "k" 1 (fun _ _ _ => HttpOutcome.exn "boom") "POST"
        "/fapi/v1/order" (some [("timestamp", Value.str "x")]) true).2
        "timestamp" ≠ some (Value.str "x") := by
  decide
